import Mathlib

/-!
Verification development for the IARPA SMART metrics scorer
(`src/iarpa_smart_metrics/evaluation.py` and `run_evaluation.py`).

The Python code is shallowly embedded as executable Lean definitions:

* Dates are day ordinals (`ℕ`); Python exact integer division (`/` on list
  lengths and areas) is `Rat.divInt`; Python string comparison is the
  lexicographic code-point order `strLe`/`strLt` on `String.data`.
* Polygon geometry is provided by an external library (shapely) that the
  scorer treats as an oracle.  It is instantiated with a finite-set model:
  a polygon is a finite set of unit cells (`List ℕ` up to duplication),
  intersection/union are set intersection/union and area is cardinality.
  All geometric quantities the scorer consumes (intersection area, union
  area, emptiness) are computed from that model.
* Python `sorted`/`list.sort` are stable sorts; they are embedded as
  `List.insertionSort`, which is stable and has the same input/output
  behaviour on every total preorder.
* `pandas.DataFrame` column assignment requires every column to have the
  same length as the index of the frame and raises `ValueError` otherwise; this
  length check is embedded in `mk_table`.
-/

namespace SmartMetrics

/-! ## Python string order (lexicographic by code point) -/

/-- Lexicographic `≤` on character lists, by code point: embeds the Python
`<=` comparison on strings. -/
def charListLe : List Char → List Char → Bool
  | [], _ => true
  | _ :: _, [] => false
  | a :: s, b :: t => if a < b then true else if b < a then false else charListLe s t

/-- Python `s <= t` on strings. -/
def strLe (a b : String) : Bool := charListLe a.data b.data

/-- Python `s < t` on strings: in a total order, `a < b ↔ ¬ b ≤ a`. -/
def strLt (a b : String) : Bool := !strLe b a

/-- Propositional form of `strLe`, used as a sort relation. -/
def strLeP (a b : String) : Prop := strLe a b = true

instance : DecidableRel strLeP := fun _ _ => inferInstanceAs (Decidable (_ = true))

/-! ## The polygon oracle, instantiated with a finite-set model -/

/-- A polygon is a finite set of unit cells. -/
abbrev Poly := List ℕ

/-- Area of a polygon: the number of distinct cells
(`GeometryUtil.compute_region_area` in the set model). -/
def Poly.area (p : Poly) : ℕ := p.dedup.length

/-- Embeds `shapely.unary_union` in the set model. -/
def unary_union (ps : List Poly) : Poly := ps.flatten.dedup

/-- Geometric intersection in the set model. -/
def inter_poly (p q : Poly) : Poly := p.dedup.filter (fun c => decide (c ∈ q))

/-- The `GeometryUtil.intersection` area of two polygons. -/
def intersection_area (p q : Poly) : ℕ := (inter_poly p q).length

/-- The `GeometryUtil.union` area of two polygons. -/
def union_area (p q : Poly) : ℕ := (p ++ q).dedup.length

/-! ## Observations and site stacks (`SiteSlice`, `SiteStack`) -/

/-- One dated observation of a site (`StackSlice`): calendar date (day
ordinal), image source, activity phase label and boundary polygon. -/
structure SiteSlice where
  date : ℕ
  source : String
  phase : String
  polygon : Poly
deriving Repr, DecidableEq, Inhabited

/-- From `StackSlice.set_id`: the slice id is `f"{self.date}_{self.source}"`. -/
def SiteSlice.id (s : SiteSlice) : String := toString s.date ++ "_" ++ s.source

/-- A site stack (`SiteStack`): one truth site or one proposal, as an
ordered sequence of observations, with its confidence score, the ids of
its (over-segmented) member sites and the union of its polygons. -/
structure SiteStack where
  id : String
  score : ℚ
  slices : List SiteSlice
  sites : List String
  polygon_union : Poly
deriving Repr, DecidableEq, Inhabited

/-- Build a plain (single-site) stack: `self.sites = [self.id]` and
`polygon_union` is the unary union of the slice polygons. -/
def mkSiteStack (id : String) (score : ℚ) (slices : List SiteSlice) : SiteStack :=
  { id := id, score := score, slices := slices, sites := [id],
    polygon_union := unary_union (slices.map (·.polygon)) }

/-- Sort key used by `get_slice` and the combined-stack slice sort:
Python `key=lambda x: (x.date, x.id)`. -/
def sliceKeyLe (a b : SiteSlice) : Prop :=
  a.date < b.date ∨ (a.date = b.date ∧ strLeP a.id b.id)

instance : DecidableRel sliceKeyLe := fun _ _ => by unfold sliceKeyLe; infer_instance

/-- Embeds `SiteStack.get_slice`: the most recent observation that is not newer
than `date` — sort the observations dated `≤ date` by `(date, id)` and
take the last; with `exact = true` additionally require an exact date
match. -/
def SiteStack.get_slice (st : SiteStack) (date : ℕ) (exact : Bool) : Option SiteSlice :=
  let prev := List.insertionSort sliceKeyLe (st.slices.filter (fun x => decide (x.date ≤ date)))
  match prev.getLast? with
  | some s => if s.date = date ∨ exact = false then some s else none
  | none => none

/-- Embeds `SiteStack.check_unary_union`: the geometric intersection of this
(truth) stack polygon union with the union of the proposal observations
matched to the truth dates by `get_slice`; an empty result means no pair
of corresponding observations can intersect. -/
def SiteStack.check_unary_union (gt sm : SiteStack) : Poly :=
  let sm_polygons := (gt.slices.filterMap (fun gs => sm.get_slice gs.date false)).map (·.polygon)
  inter_poly gt.polygon_union (unary_union sm_polygons)

/-! ## `Metric`: the similarity and performance metric functions -/

/-- Embeds `Metric.calc_iou`: Intersection over Union of two geometries, with the
intersection area (the geometry components of the Python tuple are not
consumed by the scoring paths embedded here).  If the intersection area is
falsy (zero) the result is all zeros. -/
def calc_iou (g s : Poly) : ℚ × ℕ :=
  let ia := intersection_area g s
  if ia ≠ 0 then (Rat.divInt ia (union_area g s), ia) else (0, 0)

/-- Embeds `Metric.calc_iot` with a precomputed intersection area: intersection
over the area of the first geometry, 0 when the intersection is falsy. -/
def calc_iot (g : Poly) (ia : ℕ) : ℚ :=
  if ia ≠ 0 then Rat.divInt ia (Poly.area g) else 0

/-- Embeds `Metric.calc_precision`: `tp / (tp + fp) if tp else 0`. -/
def calc_precision (tp fp : ℕ) : ℚ :=
  if tp ≠ 0 then (tp : ℚ) / ((tp : ℚ) + (fp : ℚ)) else 0

/-- Embeds `Metric.calc_recall`: `tp / (tp + fn) if tp else 0`. -/
def calc_recall (tp fn : ℕ) : ℚ :=
  if tp ≠ 0 then (tp : ℚ) / ((tp : ℚ) + (fn : ℚ)) else 0

/-- Embeds `Metric.calc_F1`: `tp / (tp + 0.5 * (fp + fn)) if tp else 0`. -/
def calc_F1 (tp fp fn : ℕ) : ℚ :=
  if tp ≠ 0 then (tp : ℚ) / ((tp : ℚ) + (1 / 2) * ((fp : ℚ) + (fn : ℚ))) else 0

/-! ## `Evaluation.stack_comparison`: the per-pair comparison table -/

/-- One row of a comparison table: the date and image source of the truth
observation together with the three spatial overlap ratios. -/
structure CompRow where
  date : ℕ
  source : String
  iou : ℚ
  iot : ℚ
  iop : ℚ
deriving Repr, DecidableEq, Inhabited

/-- The truth observations retained for comparison: "No Activity"
observations are skipped, and every "Post Construction" observation after
the first one seen is skipped. -/
def retain_slices : Bool → List SiteSlice → List SiteSlice
  | _, [] => []
  | seenPost, s :: rest =>
    if s.phase = "No Activity" then retain_slices seenPost rest
    else if s.phase = "Post Construction" then
      if seenPost then retain_slices seenPost rest else s :: retain_slices true rest
    else s :: retain_slices seenPost rest

/-- One comparison-table row: match the proposal observation by
`get_slice`; on a match compute IoU/IoT/IoP (IoT and IoP are 0 whenever
the intersection area is falsy), with no match all scores are 0. -/
def compare_row (gt_slice : SiteSlice) (sm : SiteStack) : CompRow :=
  match sm.get_slice gt_slice.date false with
  | some sm_slice =>
      let r := calc_iou gt_slice.polygon sm_slice.polygon
      { date := gt_slice.date, source := gt_slice.source, iou := r.1,
        iot := calc_iot gt_slice.polygon r.2, iop := calc_iot sm_slice.polygon r.2 }
  | none => { date := gt_slice.date, source := gt_slice.source, iou := 0, iot := 0, iop := 0 }

/-- The undeduplicated comparison table: one row per retained truth
observation, in stack order. -/
def raw_rows (gt sm : SiteStack) : List CompRow :=
  (retain_slices false gt.slices).map (fun gs => compare_row gs sm)

/-- The `df.sort_values(by=["date", "iou", "source"])` key. -/
def rowKeyLe (a b : CompRow) : Prop :=
  a.date < b.date ∨ (a.date = b.date ∧
    (a.iou < b.iou ∨ (a.iou = b.iou ∧ strLeP a.source b.source)))

instance : DecidableRel rowKeyLe := fun _ _ => by unfold rowKeyLe; infer_instance

/-- Embeds `df.drop_duplicates(subset=["date"], keep="last")`: keep, in order,
the last row of each date. -/
def drop_duplicate_dates : List CompRow → List CompRow
  | [] => []
  | r :: rest =>
    if rest.any (fun x => x.date == r.date) then drop_duplicate_dates rest
    else r :: drop_duplicate_dates rest

/-- The finished comparison table of `Evaluation.stack_comparison` (the
normal, non-fast-reject path): rows sorted by `(date, iou, source)` with
only the last row of each date kept. -/
def stack_comparison_rows (gt sm : SiteStack) : List CompRow :=
  drop_duplicate_dates (List.insertionSort rowKeyLe (raw_rows gt sm))

/-- The pandas `DataFrame` build at the end of `stack_comparison`: every
column assigned to the frame must have the same length as the index of
the frame, which was fixed by the first (score) column; pandas raises
`ValueError` otherwise.  `score_col_len` is the length of the zero/score
columns, `valid_slices` the list from which the date/phase/source columns
are built. -/
def mk_table (score_col_len : ℕ) (valid_slices : List SiteSlice) (rows : List CompRow) :
    Except String (List CompRow) :=
  if score_col_len = valid_slices.length then .ok rows
  else .error "Length of values does not match length of index"

/-- Embeds `Evaluation.stack_comparison`.  With the unary-union check enabled and
no intersection, the score columns are filled with `len(gt_stack.slices)`
zeros while `valid_slices` stays empty; both paths then build the frame,
whose date/phase/source columns come from `valid_slices`. -/
def stack_comparison (gt sm : SiteStack) (check_unary : Bool) :
    Except String (List CompRow) :=
  if check_unary && (gt.check_unary_union sm).isEmpty then
    mk_table gt.slices.length [] []
  else
    mk_table (retain_slices false gt.slices).length (retain_slices false gt.slices)
      (stack_comparison_rows gt sm)

/-! ## `Evaluation.segment_sites`: over-segmentation resolution -/

/-- Embeds `Evaluation.get_sm_stack_id`: join the member ids, sorted, with
underscores. -/
def get_sm_stack_id (stackList : List SiteStack) : String :=
  String.intercalate "_" (List.insertionSort strLeP (stackList.map (·.id)))

/-- Sort key for the member stacks of a combined stack
(`sorted(stacks, key=lambda stack: stack.id)`). -/
def stackIdLe (a b : SiteStack) : Prop := strLeP a.id b.id

instance : DecidableRel stackIdLe := fun _ _ => by unfold stackIdLe; infer_instance

/-- Embeds `SiteStack.combine_stacks`: merge several proposal stacks into one
combined stack.  For every observation date of the truth stack or of any
member, the per-member `get_slice` matches are unioned into one combined
observation (sources and phases joined with underscores); dates with no
match are skipped; the slices are finally sorted by `(date, id)`.  The
combined score is the minimum of the truthy member scores (the source
raises on an empty minimum; no embedded claim depends on that case, and
`0` is returned there). -/
def SiteStack.combine_stacks (gt : SiteStack) (stackList : List SiteStack) : SiteStack :=
  let sorted_stacks := List.insertionSort stackIdLe stackList
  let observation_dates :=
    ((gt.slices.map (·.date)) ++ (stackList.map (fun st => st.slices.map (·.date))).flatten).dedup
  let slices := observation_dates.filterMap (fun d =>
    let matched := sorted_stacks.filterMap (fun st => st.get_slice d false)
    if matched.isEmpty then none
    else some
      { date := d,
        source := String.intercalate "_" (matched.map (·.source)),
        phase := String.intercalate "_" (matched.map (·.phase)),
        polygon := unary_union (matched.map (·.polygon)) })
  let slices := List.insertionSort sliceKeyLe slices
  { id := get_sm_stack_id stackList,
    score := match (sorted_stacks.map (·.score)).filter (fun q => decide (q ≠ 0)) with
      | [] => 0
      | q :: qs => qs.foldl min q,
    slices := slices,
    sites := sorted_stacks.map (·.id),
    polygon_union := unary_union (slices.map (·.polygon)) }

/-- The detection score of a comparison table: the proportion of truth
observations whose IoU clears the association threshold `tau`
(`len(filter(x >= tau, scores)) / len(scores) if len(scores) > 0 else 0`). -/
def detection_score (tau : ℚ) (rows : List CompRow) : ℚ :=
  if rows.length = 0 then 0
  else Rat.divInt ((rows.filter (fun r => decide (tau ≤ r.iou))).length : ℤ) (rows.length : ℤ)

/-- The parts of the `segment_sites` result tuple that grow as stacks are
compared, together with the `proposal_cache` dict (an association list
keyed by stack id). -/
structure SegAcc where
  stackList : List SiteStack
  dfs : List (List CompRow)
  cache : List (String × List CompRow)
deriving Repr, DecidableEq, Inhabited

/-- Embeds `proposal_cache.get(key)`. -/
def lookup_cache : List (String × List CompRow) → String → Option (List CompRow)
  | [], _ => none
  | (k, v) :: rest, key => if k = key then some v else lookup_cache rest key

/-- Compare `gt` with a stack, record the result and cache the table
under the id of the stack (`Evaluation.score_stack` followed by the
save-and-cache lines of `segment_sites`). -/
def seg_record (gt : SiteStack) (sm : SiteStack) (acc : SegAcc) : List CompRow × SegAcc :=
  let df := stack_comparison_rows gt sm
  (df, { stackList := acc.stackList ++ [sm], dfs := acc.dfs ++ [df],
         cache := acc.cache ++ [(sm.id, df)] })

/-- The individual-member scoring pass of `segment_sites`: compare the
truth site with each member proposal (through the cache) and pair every
member with its own detection score. -/
def score_individual (gt : SiteStack) (tau : ℚ) :
    List SiteStack → SegAcc → SegAcc × List (SiteStack × ℚ)
  | [], acc => (acc, [])
  | s :: rest, acc =>
    let p :=
      match lookup_cache acc.cache s.id with
      | some df => (df, acc)
      | none => seg_record gt s acc
    let ds := detection_score tau p.1
    let r := score_individual gt tau rest p.2
    (r.1, (s, ds) :: r.2)

/-- The sort key `detection_scores.sort(key=lambda x: (x[1], x[0].id))`. -/
def scoredKeyLe (a b : SiteStack × ℚ) : Prop :=
  a.2 < b.2 ∨ (a.2 = b.2 ∧ strLeP a.1.id b.1.id)

instance : DecidableRel scoredKeyLe := fun _ _ => by unfold scoredKeyLe; infer_instance

/-- The `while detection_score <= rho and remaining_stacks:` loop of
`segment_sites`.  Each iteration scores the union of the remaining
stacks (through the cache), then pops the lowest-scoring remaining stack;
the loop continues while the score just computed is `≤ rho` and stacks
remain.  Besides the updated accumulator it returns the list of popped
stacks and, for each executed iteration, the id and detection score of
the union that iteration considered. -/
def prune_step (gt : SiteStack) (tau : ℚ) (r : SiteStack) (rest : List SiteStack)
    (acc : SegAcc) : String × ℚ × SegAcc :=
  let remaining := r :: rest
  let sm_stack_id := if rest.isEmpty then r.id else get_sm_stack_id remaining
  let p :=
    match lookup_cache acc.cache sm_stack_id with
    | some df => (df, acc)
    | none => seg_record gt (gt.combine_stacks remaining) acc
  (sm_stack_id, detection_score tau p.1, p.2)

/-- The recursion of the pruning loop, one `prune_step` per iteration. -/
def prune_loop (gt : SiteStack) (tau rho : ℚ) :
    List SiteStack → SegAcc → SegAcc × List SiteStack × List (String × ℚ)
  | [], acc => (acc, [], [])
  | r :: rest, acc =>
    let s := prune_step gt tau r rest acc
    if s.2.1 ≤ rho then
      let res := prune_loop gt tau rho rest s.2.2
      (res.1, r :: res.2.1, (s.1, s.2.1) :: res.2.2)
    else (s.2.2, [r], [(s.1, s.2.1)])

/-- The tail of the pruning phase, given the sorted member/score pairs:
drop the lowest-scoring member (`remaining_stacks = sorted[1:]`) and run
the pruning loop, whose entry condition compares the initial score `-1`
with `rho`.  Returns the updated accumulator and the discarded members
in discard order. -/
def prune_phase_rest (gt : SiteStack) (tau rho : ℚ) (acc1 : SegAcc) :
    List (SiteStack × ℚ) → SegAcc × List SiteStack
  | [] => (acc1, [])
  | first :: restS =>
    if (-1 : ℚ) ≤ rho then
      ((prune_loop gt tau rho (restS.map (·.1)) acc1).1,
       first.1 :: (prune_loop gt tau rho (restS.map (·.1)) acc1).2.1)
    else (acc1, [first.1])

/-- The greedy pruning phase of `segment_sites`, entered when the union of
all surviving proposals misses `rho`: score each member individually,
sort ascending by `(own detection score, id)`, then discard members one
at a time from the bottom of that order. -/
def pruning_phase (gt : SiteStack) (tau rho : ℚ) (sm_stacks : List SiteStack)
    (acc : SegAcc) : SegAcc × List SiteStack :=
  prune_phase_rest gt tau rho (score_individual gt tau sm_stacks acc).1
    (List.insertionSort scoredKeyLe (score_individual gt tau sm_stacks acc).2)

/-- One confidence-threshold iteration of `segment_sites`: filter the
proposals by score, compare the union of the survivors (a single survivor is
compared directly) with the truth site, and stop for this threshold if
there is at most one survivor or the detection score of the union clears
`rho`; otherwise run the greedy pruning phase. -/
def seg_threshold (gt : SiteStack) (tau rho : ℚ) (all_sm_stacks : List SiteStack)
    (threshold : ℚ) (acc : SegAcc) : SegAcc :=
  let sm_stacks := all_sm_stacks.filter (fun s => decide (threshold ≤ s.score))
  if sm_stacks.isEmpty then acc
  else
    let sm_stack_id :=
      if sm_stacks.length = 1 then (sm_stacks.headD default).id else get_sm_stack_id sm_stacks
    let p :=
      match lookup_cache acc.cache sm_stack_id with
      | some df => (df, acc)
      | none =>
        seg_record gt
          (if sm_stacks.length = 1 then sm_stacks.headD default
           else gt.combine_stacks sm_stacks) acc
    let ds := detection_score tau p.1
    if sm_stacks.length = 1 ∨ rho ≤ ds then p.2
    else (pruning_phase gt tau rho sm_stacks p.2).1

/-- Embeds `Evaluation.segment_sites`: for each confidence threshold, filter the
proposals and explore unions of the survivors; returns the truth id with
every stack compared and its comparison table, in comparison order. -/
def segment_sites (gt : SiteStack) (all_sm_stacks : List SiteStack) (tau rho : ℚ)
    (confidence_score_thresholds : List ℚ) : String × List SiteStack × List (List CompRow) :=
  let acc := confidence_score_thresholds.foldl
    (fun acc thr => seg_threshold gt tau rho all_sm_stacks thr acc) ⟨[], [], []⟩
  (gt.id, acc.stackList, acc.dfs)

/-! ## `Evaluation.build_scoreboard`: association scoring -/

/-- The annotation status categories of `evaluation.py` (module level). -/
def POSITIVE_STATUS_TYPES : List String :=
  ["positive", "positive_annotated", "positive_annotated_static", "positive_partial",
   "positive_partial_static", "positive_pending", "transient_positive", "transient_pending"]

/-- Statuses scored as negatives. -/
def NEGATIVE_STATUS_TYPES : List String :=
  ["positive_excluded", "negative", "negative_unbounded", "transient_negative",
   "transient_excluded"]

/-- The ignore-type statuses used for association. -/
def IGNORE_STATUS_TYPES : List String := ["ignore", "positive_unbounded", "transient_ignore"]

/-- The positive-unbounded status list. -/
def POSITIVE_UNBOUNDED_STATUS_TYPES : List String := ["positive_unbounded"]

/-- The annotated-ignore status list. -/
def ANNOTATED_IGNORE_STATUS_TYPES : List String := ["ignore", "transient_ignore"]

/-- One proposal that detected a truth site, as stored in
`detections[gt_id]`. -/
structure Detection where
  sm_id : String
  spatial_overlap : ℚ
  tiot : ℚ
  tiop : ℚ
deriving Repr, DecidableEq, Inhabited

/-- Python `max(iterable, key=k)`: scan left to right keeping the current
maximum, replacing it only when a strictly greater key appears (so the
first of several elements with a maximal key wins); `gtK y c` decides
`k(y) > k(c)`. -/
def py_max_by {α : Type} (gtK : α → α → Bool) : List α → Option α
  | [] => none
  | x :: rest => some (rest.foldl (fun c y => if gtK y c then y else c) x)

/-- Decides `k(y) > k(c)` for the `build_scoreboard` association key
`(len(sm_stacks[x["sm_id"]].sites), x["spatial_overlap"], x["sm_id"])`:
lexicographic greater-than on the triple, strings compared in the Python
code-point order.  `num_sites` gives `len(self.sm_stacks[id].sites)`. -/
def det_key_gt (num_sites : String → ℕ) (y c : Detection) : Bool :=
  decide (num_sites c.sm_id < num_sites y.sm_id) ||
  (decide (num_sites c.sm_id = num_sites y.sm_id) &&
    (decide (c.spatial_overlap < y.spatial_overlap) ||
     (decide (c.spatial_overlap = y.spatial_overlap) && strLt c.sm_id y.sm_id)))

/-- How `build_scoreboard` chooses the best matched proposal for a
detected truth site:
`max(detections[gt_id], key=...)["sm_id"] if detections[gt_id] else None`. -/
def best_sm_id (num_sites : String → ℕ) (dets : List Detection) : Option String :=
  (py_max_by (det_key_gt num_sites) dets).map (·.sm_id)

/-- The tp/fp/fn/tn counters of one scoreboard row. -/
structure Counts where
  tp : ℕ
  fp : ℕ
  fn : ℕ
  tn : ℕ
deriving Repr, DecidableEq, Inhabited

/-- The status-classification step of `build_scoreboard` for one truth
site: from the effective status of the site and whether it was detected,
produce the recorded `association_status`, the display color and the
updated counters (statuses in none of the four lists leave the
`association_status` initialized to `None` and the counters unchanged). -/
def score_truth_site (status : String) (detected : Bool) (c : Counts) :
    Option String × Option ℕ × Counts :=
  if detected then
    if status ∈ POSITIVE_STATUS_TYPES then (some "tp", some 2, { c with tp := c.tp + 1 })
    else if status ∈ NEGATIVE_STATUS_TYPES then (some "fp", some 5, { c with fp := c.fp + 1 })
    else if status ∈ POSITIVE_UNBOUNDED_STATUS_TYPES then (some "0", some 8, c)
    else if status ∈ ANNOTATED_IGNORE_STATUS_TYPES then (some "0", some 11, c)
    else (none, none, c)
  else
    if status ∈ POSITIVE_STATUS_TYPES then (some "fn", some 3, { c with fn := c.fn + 1 })
    else if status ∈ NEGATIVE_STATUS_TYPES then (some "tn", some 6, { c with tn := c.tn + 1 })
    else if status ∈ POSITIVE_UNBOUNDED_STATUS_TYPES then (some "0", some 9, c)
    else if status ∈ ANNOTATED_IGNORE_STATUS_TYPES then (some "0", some 12, c)
    else (none, none, c)

/-! ## `Evaluation.point_comparison` -/

/-- The six distance scores of a point-vs-stack comparison. -/
structure PointScores where
  min_spatial_distance : ℚ
  central_spatial_distance : ℚ
  max_spatial_distance : ℚ
  min_temporal_distance : ℚ
  central_temporal_distance : ℚ
  max_temporal_distance : ℚ
deriving Repr, DecidableEq, Inhabited

/-- The sentinel scores (`1e4`) assigned when any metric computation
raises, "so that the polygon will not associate with the proposal". -/
def point_sentinel : PointScores := ⟨10000, 10000, 10000, 10000, 10000, 10000⟩

/-- Embeds `Evaluation.point_comparison`.  The spatial and temporal metric
computations (`Metric.calc_spatial_point_metrics`,
`Metric.calc_temporal_point_metrics`) run external geometry/projection
code that may raise; they are passed here as their outcomes.  The whole
body runs under one `try`: if either computation raises, every one of the
six scores — including any spatial score already assigned — is set to the
sentinel `1e4`, and no exception escapes. -/
def point_comparison (spatial temporal : Except String (ℚ × ℚ × ℚ)) : PointScores :=
  match spatial, temporal with
  | .ok (a, b, c), .ok (d, e, f) => ⟨a, b, c, d, e, f⟩
  | _, _ => point_sentinel

/-! ## The command-line threshold options (`run_evaluation.py`) -/

/-- The `click.FloatRange(lo, hi, clamp)` conversion, as documented by click:
with `clamp=True` an out-of-range value is clamped to the nearest bound
and accepted; only with `clamp=False` is an out-of-range value rejected
with a usage error. -/
def float_range_convert (lo hi : ℚ) (clamp : Bool) (x : ℚ) : Except String ℚ :=
  if clamp then .ok (max lo (min hi x))
  else if x < lo ∨ hi < x then .error "value not in range" else .ok x

/-- The conversion applied to every value of the `--tau`, `--rho`,
`--temporal_iop`, `--temporal_iot`, `--transient_temporal_iop`,
`--transient_temporal_iot` and `--confidence` options, all declared as
`click.FloatRange(0, 1, clamp=True)` in `run_evaluation.py`. -/
def threshold_option_convert (x : ℚ) : Except String ℚ := float_range_convert 0 1 true x

/-- Decidable equality of comparison results, used to evaluate
`stack_comparison` on concrete inputs. -/
instance {ε α : Type} [DecidableEq ε] [DecidableEq α] : DecidableEq (Except ε α) := fun a b =>
  match a, b with
  | .error x, .error y =>
    decidable_of_iff (x = y) ⟨fun h => by rw [h], fun h => by injection h⟩
  | .error _, .ok _ => isFalse (fun h => by injection h)
  | .ok _, .error _ => isFalse (fun h => by injection h)
  | .ok x, .ok y =>
    decidable_of_iff (x = y) ⟨fun h => by rw [h], fun h => by injection h⟩

/-! ## Concrete inputs used by the counterexamples and witnesses -/

/-- The rational `1/2` in kernel-reducible form. -/
def half : ℚ := Rat.divInt 1 2

/-- A truth site with two observations, both with polygon `{0,1,2,3}`. -/
def exGt : SiteStack := mkSiteStack "GT" 1
  [⟨1, "g1", "Active Construction", [0, 1, 2, 3]⟩,
   ⟨2, "g2", "Active Construction", [0, 1, 2, 3]⟩]

/-- A proposal matching the truth site exactly on date 1 only. -/
def exA : SiteStack := mkSiteStack "A" 1
  [⟨1, "a1", "Active Construction", [0, 1, 2, 3]⟩,
   ⟨2, "a2", "Active Construction", [9]⟩]

/-- A proposal matching the truth site exactly on date 1 only. -/
def exB : SiteStack := mkSiteStack "B" 1
  [⟨1, "b1", "Active Construction", [0, 1, 2, 3]⟩,
   ⟨2, "b2", "Active Construction", [8]⟩]

/-- A proposal disjoint from the truth site, with five junk cells. -/
def exC : SiteStack := mkSiteStack "C" 1
  [⟨1, "c1", "Active Construction", [20, 21, 22, 23, 24]⟩,
   ⟨2, "c2", "Active Construction", [20, 21, 22, 23, 24]⟩]

/-- A proposal disjoint from the truth site, with one junk cell. -/
def exD : SiteStack := mkSiteStack "D" 1
  [⟨1, "d1", "Active Construction", [30]⟩,
   ⟨2, "d2", "Active Construction", [30]⟩]

/-- Runs `segment_sites` on the four proposals with `tau = rho = 1/2` and a
single confidence threshold 0. -/
def exOut : String × List SiteStack × List (List CompRow) :=
  segment_sites exGt [exA, exB, exC, exD] half half [0]

/-- A one-observation truth site for the fast-reject path. -/
def exGtDisjoint : SiteStack := mkSiteStack "GT2" 1
  [⟨1, "g1", "Active Construction", [0]⟩]

/-- A proposal spatially disjoint from `exGtDisjoint`. -/
def exSmDisjoint : SiteStack := mkSiteStack "S2" 1
  [⟨1, "s1", "Active Construction", [5]⟩]

/-- A truth site with two observations on the same date. -/
def exGtDup : SiteStack := mkSiteStack "GT9" 1
  [⟨1, "src1", "Active Construction", [0, 1]⟩,
   ⟨1, "src2", "Active Construction", [0, 1, 2, 3]⟩]

/-- A proposal observed once with polygon `{0,1,2,3}`. -/
def exSmDup : SiteStack := mkSiteStack "S9" 1
  [⟨1, "p1", "Active Construction", [0, 1, 2, 3]⟩]

/-- Two detections tied on member count and spatial overlap, with ids
`"a"` and `"b"`. -/
def exDets : List Detection := [⟨"a", half, 0, 0⟩, ⟨"b", half, 0, 0⟩]

/-! ## Order toolkit: the sort relations are total preorders -/

theorem charListLe_refl (l : List Char) : charListLe l l = true := by
  induction l with
  | nil => rfl
  | cons a s ih => simp [charListLe, ih]

theorem charListLe_total : ∀ l m : List Char, charListLe l m = true ∨ charListLe m l = true := by
  intro l
  induction l with
  | nil => intro m; left; rfl
  | cons a s ih =>
    intro m
    match m with
    | [] => right; rfl
    | b :: t =>
      simp only [charListLe]
      rcases lt_trichotomy a b with h | h | h
      · left; simp [h]
      · subst h
        simpa using ih t
      · right; simp [h, lt_asymm h]

theorem charListLe_trans :
    ∀ l m n : List Char, charListLe l m = true → charListLe m n = true →
      charListLe l n = true := by
  intro l
  induction l with
  | nil => intro m n _ _; rfl
  | cons a s ih =>
    intro m n hlm hmn
    match m, n with
    | [], _ => simp [charListLe] at hlm
    | _ :: _, [] => simp [charListLe] at hmn
    | b :: t, c :: u =>
      simp only [charListLe] at hlm hmn ⊢
      by_cases hab : a < b
      · by_cases hbc : b < c
        · simp [lt_trans hab hbc]
        · by_cases hcb : c < b
          · simp [hbc, hcb] at hmn
          · have hbc' : b = c := le_antisymm (not_lt.mp hcb) (not_lt.mp hbc)
            subst hbc'
            simp [hab]
      · by_cases hba : b < a
        · simp [hab, hba] at hlm
        · have hab' : a = b := le_antisymm (not_lt.mp hba) (not_lt.mp hab)
          subst hab'
          simp only [lt_irrefl, if_false] at hlm
          by_cases hac : a < c
          · simp [hac]
          · by_cases hca : c < a
            · simp [hac, hca] at hmn
            · have hac' : a = c := le_antisymm (not_lt.mp hca) (not_lt.mp hac)
              subst hac'
              simp only [lt_irrefl, if_false] at hmn ⊢
              exact ih t u hlm hmn

theorem strLeP_refl (a : String) : strLeP a a := charListLe_refl a.data

theorem strLeP_total (a b : String) : strLeP a b ∨ strLeP b a :=
  charListLe_total a.data b.data

theorem strLeP_trans {a b c : String} (h1 : strLeP a b) (h2 : strLeP b c) : strLeP a c :=
  charListLe_trans a.data b.data c.data h1 h2

instance : IsTotal String strLeP := ⟨strLeP_total⟩

instance : IsTrans String strLeP := ⟨fun _ _ _ => strLeP_trans⟩

instance : IsTotal SiteSlice sliceKeyLe := by
  constructor
  intro a b
  unfold sliceKeyLe
  rcases Nat.lt_trichotomy a.date b.date with h | h | h
  · exact Or.inl (Or.inl h)
  · rcases strLeP_total a.id b.id with hs | hs
    · exact Or.inl (Or.inr ⟨h, hs⟩)
    · exact Or.inr (Or.inr ⟨h.symm, hs⟩)
  · exact Or.inr (Or.inl h)

instance : IsTrans SiteSlice sliceKeyLe := by
  constructor
  intro a b c hab hbc
  unfold sliceKeyLe at *
  rcases hab with h1 | ⟨e1, s1⟩
  · rcases hbc with h2 | ⟨e2, _⟩
    · exact Or.inl (lt_trans h1 h2)
    · exact Or.inl (e2 ▸ h1)
  · rcases hbc with h2 | ⟨e2, s2⟩
    · exact Or.inl (e1 ▸ h2)
    · exact Or.inr ⟨e1.trans e2, strLeP_trans s1 s2⟩

instance : IsTotal CompRow rowKeyLe := by
  constructor
  intro a b
  unfold rowKeyLe
  rcases Nat.lt_trichotomy a.date b.date with h | h | h
  · exact Or.inl (Or.inl h)
  · rcases lt_trichotomy a.iou b.iou with hq | hq | hq
    · exact Or.inl (Or.inr ⟨h, Or.inl hq⟩)
    · rcases strLeP_total a.source b.source with hs | hs
      · exact Or.inl (Or.inr ⟨h, Or.inr ⟨hq, hs⟩⟩)
      · exact Or.inr (Or.inr ⟨h.symm, Or.inr ⟨hq.symm, hs⟩⟩)
    · exact Or.inr (Or.inr ⟨h.symm, Or.inl hq⟩)
  · exact Or.inr (Or.inl h)

instance : IsTrans CompRow rowKeyLe := by
  constructor
  intro a b c hab hbc
  unfold rowKeyLe at *
  rcases hab with h1 | ⟨e1, q1⟩
  · rcases hbc with h2 | ⟨e2, _⟩
    · exact Or.inl (lt_trans h1 h2)
    · exact Or.inl (e2 ▸ h1)
  · rcases hbc with h2 | ⟨e2, q2⟩
    · exact Or.inl (e1 ▸ h2)
    · refine Or.inr ⟨e1.trans e2, ?_⟩
      rcases q1 with hq1 | ⟨eq1, s1⟩
      · rcases q2 with hq2 | ⟨eq2, _⟩
        · exact Or.inl (lt_trans hq1 hq2)
        · exact Or.inl (eq2 ▸ hq1)
      · rcases q2 with hq2 | ⟨eq2, s2⟩
        · exact Or.inl (eq1 ▸ hq2)
        · exact Or.inr ⟨eq1.trans eq2, strLeP_trans s1 s2⟩

instance : IsTotal (SiteStack × ℚ) scoredKeyLe := by
  constructor
  intro a b
  unfold scoredKeyLe
  rcases lt_trichotomy a.2 b.2 with h | h | h
  · exact Or.inl (Or.inl h)
  · rcases strLeP_total a.1.id b.1.id with hs | hs
    · exact Or.inl (Or.inr ⟨h, hs⟩)
    · exact Or.inr (Or.inr ⟨h.symm, hs⟩)
  · exact Or.inr (Or.inl h)

instance : IsTrans (SiteStack × ℚ) scoredKeyLe := by
  constructor
  intro a b c hab hbc
  unfold scoredKeyLe at *
  rcases hab with h1 | ⟨e1, s1⟩
  · rcases hbc with h2 | ⟨e2, _⟩
    · exact Or.inl (lt_trans h1 h2)
    · exact Or.inl (e2 ▸ h1)
  · rcases hbc with h2 | ⟨e2, s2⟩
    · exact Or.inl (e1 ▸ h2)
    · exact Or.inr ⟨e1.trans e2, strLeP_trans s1 s2⟩

/-! ## C5: out-of-range thresholds -/

/-- C5, counterexample: a `tau`/`rho`-style threshold of `3/2`, outside
`[0,1]`, is not rejected — the conversion declared by the click options
succeeds, returning the clamped value `1`, and evaluation proceeds. -/
theorem threshold_out_of_range_accepted :
    threshold_option_convert (Rat.divInt 3 2) = .ok 1
    ∧ ¬ ((Rat.divInt 3 2 : ℚ) ≤ 1) := by
  constructor
  · show Except.ok (max 0 (min 1 (Rat.divInt 3 2))) = Except.ok 1
    have h1 : min 1 (Rat.divInt 3 2) = 1 := min_eq_left (by norm_num [Rat.divInt])
    rw [h1, max_eq_right (by norm_num)]
  · norm_num [Rat.divInt]

/-- C5, amended: every value of a threshold option declared as
`click.FloatRange(0, 1, clamp=True)` is accepted; a value outside `[0,1]`
is silently clamped to the nearest bound and the run proceeds with the
clamped, in-range value instead of the configuration being rejected. -/
theorem threshold_option_clamps (x : ℚ) :
    threshold_option_convert x = .ok (max 0 (min 1 x))
    ∧ 0 ≤ max 0 (min 1 x) ∧ max 0 (min 1 x) ≤ 1 :=
  ⟨rfl, le_max_left 0 _, max_le (by norm_num) (min_le_left 1 x)⟩

/-! ## C6: ignore-type and positive-unbounded truth sites -/

/-- C6: for every truth site whose effective status is ignore-type
(`"ignore"`, `"transient_ignore"`) or `"positive_unbounded"` — that is,
any status in `IGNORE_STATUS_TYPES` — the scoreboard classification step
leaves all of the tp/fp/fn/tn counters unchanged, whether or not the site
was detected, and records association status `"0"`. -/
theorem ignore_status_not_counted (status : String) (h : status ∈ IGNORE_STATUS_TYPES)
    (detected : Bool) (c : Counts) :
    (score_truth_site status detected c).1 = some "0"
    ∧ (score_truth_site status detected c).2.2 = c := by
  have h' : status = "ignore" ∨ status = "positive_unbounded" ∨ status = "transient_ignore" := by
    simpa [IGNORE_STATUS_TYPES] using h
  rcases h' with h' | h' | h' <;> subst h' <;> cases detected <;> exact ⟨rfl, rfl⟩

/-- Witness for C6 at the concrete status `"ignore"`, detected, with
counters `(1, 2, 3, 4)`. -/
theorem ignore_status_not_counted_witness :
    ("ignore" ∈ IGNORE_STATUS_TYPES)
    ∧ (score_truth_site "ignore" true ⟨1, 2, 3, 4⟩).1 = some "0"
    ∧ (score_truth_site "ignore" true ⟨1, 2, 3, 4⟩).2.2 = (⟨1, 2, 3, 4⟩ : Counts) :=
  ⟨by decide, ignore_status_not_counted "ignore" (by decide) true ⟨1, 2, 3, 4⟩⟩

/-! ## C7: precision / recall / F1 boundary cases -/

/-- C7: with `tp = 0`, `calc_precision`, `calc_recall` and `calc_F1` all
return 0 whatever `fp` and `fn` are; with `tp > 0` and `fp = fn = 0` all
three return 1. -/
theorem precision_recall_F1_boundary (tp fp fn : ℕ) :
    (tp = 0 → calc_precision tp fp = 0 ∧ calc_recall tp fn = 0 ∧ calc_F1 tp fp fn = 0)
    ∧ (0 < tp → fp = 0 → fn = 0 →
        calc_precision tp fp = 1 ∧ calc_recall tp fn = 1 ∧ calc_F1 tp fp fn = 1) := by
  constructor
  · intro h
    subst h
    simp [calc_precision, calc_recall, calc_F1]
  · intro htp hfp hfn
    subst hfp
    subst hfn
    have h0 : ((tp : ℚ)) ≠ 0 := by exact_mod_cast htp.ne'
    unfold calc_precision calc_recall calc_F1
    simp only [if_pos htp.ne']
    norm_num [div_self h0]

/-- Witness for C7 at `(tp, fp, fn) = (0, 5, 7)` and `(3, 0, 0)`. -/
theorem precision_recall_F1_boundary_witness :
    (calc_precision 0 5 = 0 ∧ calc_recall 0 7 = 0 ∧ calc_F1 0 5 7 = 0)
    ∧ (calc_precision 3 0 = 1 ∧ calc_recall 3 0 = 1 ∧ calc_F1 3 0 0 = 1) :=
  ⟨(precision_recall_F1_boundary 0 5 7).1 rfl,
   (precision_recall_F1_boundary 3 0 0).2 (by decide) rfl rfl⟩

/-! ## C10: point comparison never propagates an exception -/

/-- C10: `point_comparison` is total — it always produces all six
distance scores.  If either underlying metric computation fails, every
score (including any spatial score already computed) is the sentinel
`1e4`; if both succeed, the computed distances are returned unchanged. -/
theorem point_comparison_never_raises (spatial temporal : Except String (ℚ × ℚ × ℚ)) :
    (∀ e, spatial = .error e → point_comparison spatial temporal = point_sentinel)
    ∧ (∀ e, temporal = .error e → point_comparison spatial temporal = point_sentinel)
    ∧ (∀ a b c d e f, spatial = .ok (a, b, c) → temporal = .ok (d, e, f) →
        point_comparison spatial temporal = ⟨a, b, c, d, e, f⟩) := by
  refine ⟨?_, ?_, ?_⟩
  · intro e he
    subst he
    cases temporal with
    | error te => rfl
    | ok p =>
      obtain ⟨d, e', f⟩ := p
      rfl
  · intro e he
    subst he
    cases spatial with
    | error se => rfl
    | ok p =>
      obtain ⟨a, b, c⟩ := p
      rfl
  · intro a b c d e f hs ht
    subst hs
    subst ht
    rfl

/-- Witness for C10: a failing temporal computation forces the sentinel
scores. -/
theorem point_comparison_never_raises_witness :
    ((Except.error "projection failure" : Except String (ℚ × ℚ × ℚ))
        = Except.error "projection failure")
    ∧ point_comparison (Except.ok (1, 2, 3)) (Except.error "projection failure")
        = point_sentinel :=
  ⟨rfl, (point_comparison_never_raises _ _).2.1 "projection failure" rfl⟩

/-! ## C8: `get_slice` returns the latest not-newer observation -/

theorem getLast?_mem' {α : Type} : ∀ {l : List α} {s : α}, l.getLast? = some s → s ∈ l := by
  intro l
  induction l with
  | nil => intro s h; simp at h
  | cons a t ih =>
    intro s h
    cases t with
    | nil =>
      simp only [List.getLast?_singleton, Option.some.injEq] at h
      subst h
      exact List.mem_singleton_self a
    | cons b u =>
      rw [List.getLast?_cons_cons] at h
      exact List.mem_cons_of_mem a (ih h)

theorem pairwise_getLast {α : Type} {R : α → α → Prop} :
    ∀ {l : List α} {s : α}, List.Pairwise R l → l.getLast? = some s →
      ∀ x ∈ l, x = s ∨ R x s := by
  intro l
  induction l with
  | nil => intro s _ h; simp at h
  | cons a t ih =>
    intro s hp h x hx
    cases t with
    | nil =>
      simp only [List.getLast?_singleton, Option.some.injEq] at h
      subst h
      rcases List.mem_singleton.mp hx with rfl
      exact Or.inl rfl
    | cons b u =>
      rw [List.getLast?_cons_cons] at h
      rcases List.mem_cons.mp hx with rfl | hx'
      · exact Or.inr ((List.pairwise_cons.mp hp).1 s (getLast?_mem' h))
      · exact ih (List.pairwise_cons.mp hp).2 h x hx'

/-- C8: with `exact = False`, `get_slice` returns an observation of the
stack whose date is `≤` the query date and is the latest such date; it
returns `None` exactly when every observation of the stack is dated
after the query date. -/
theorem get_slice_latest (st : SiteStack) (d : ℕ) :
    (∀ s, st.get_slice d false = some s →
      s ∈ st.slices ∧ s.date ≤ d ∧ ∀ t ∈ st.slices, t.date ≤ d → t.date ≤ s.date)
    ∧ (st.get_slice d false = none ↔ ∀ t ∈ st.slices, d < t.date) := by
  have hperm : (List.insertionSort sliceKeyLe
      (st.slices.filter (fun x => decide (x.date ≤ d)))).Perm
      (st.slices.filter (fun x => decide (x.date ≤ d))) :=
    List.perm_insertionSort _ _
  have hsorted : List.Pairwise sliceKeyLe (List.insertionSort sliceKeyLe
      (st.slices.filter (fun x => decide (x.date ≤ d)))) :=
    List.sorted_insertionSort sliceKeyLe _
  constructor
  · intro s hs
    simp only [SiteStack.get_slice] at hs
    cases hLast : (List.insertionSort sliceKeyLe
        (st.slices.filter (fun x => decide (x.date ≤ d)))).getLast? with
    | none => rw [hLast] at hs; simp at hs
    | some s' =>
      rw [hLast] at hs
      simp at hs
      subst hs
      have hmem : s' ∈ st.slices.filter (fun x => decide (x.date ≤ d)) :=
        hperm.mem_iff.mp (getLast?_mem' hLast)
      have hin : s' ∈ st.slices := (List.mem_filter.mp hmem).1
      have hdate : s'.date ≤ d := by
        have := (List.mem_filter.mp hmem).2
        simpa using this
      refine ⟨hin, hdate, ?_⟩
      intro t ht htd
      have htf : t ∈ st.slices.filter (fun x => decide (x.date ≤ d)) :=
        List.mem_filter.mpr ⟨ht, by simpa using htd⟩
      have htp : t ∈ List.insertionSort sliceKeyLe
          (st.slices.filter (fun x => decide (x.date ≤ d))) := hperm.mem_iff.mpr htf
      rcases pairwise_getLast hsorted hLast t htp with rfl | hR
      · exact le_refl _
      · rcases hR with hlt | ⟨heq, _⟩
        · exact le_of_lt hlt
        · exact le_of_eq heq
  · constructor
    · intro h t ht
      by_contra hnot
      push_neg at hnot
      have htf : t ∈ st.slices.filter (fun x => decide (x.date ≤ d)) :=
        List.mem_filter.mpr ⟨ht, by simpa using hnot⟩
      have htp : t ∈ List.insertionSort sliceKeyLe
          (st.slices.filter (fun x => decide (x.date ≤ d))) := hperm.mem_iff.mpr htf
      have hne : List.insertionSort sliceKeyLe
          (st.slices.filter (fun x => decide (x.date ≤ d))) ≠ [] :=
        List.ne_nil_of_mem htp
      simp only [SiteStack.get_slice] at h
      cases hLast : (List.insertionSort sliceKeyLe
          (st.slices.filter (fun x => decide (x.date ≤ d)))).getLast? with
      | none => exact hne (List.getLast?_eq_none_iff.mp hLast)
      | some s' =>
        rw [hLast] at h
        simp at h
    · intro h
      have hfilt : st.slices.filter (fun x => decide (x.date ≤ d)) = [] := by
        rw [List.filter_eq_nil_iff]
        intro a ha
        simpa using not_le.mpr (h a ha)
      simp [SiteStack.get_slice, hfilt]

/-- Witness for C8: on the proposal `exA` at query date 5, the returned
observation is the date-2 slice, which is latest among the dates `≤ 5`. -/
theorem get_slice_latest_witness :
    (⟨2, "a2", "Active Construction", [9]⟩ : SiteSlice) ∈ exA.slices
    ∧ (⟨2, "a2", "Active Construction", [9]⟩ : SiteSlice).date ≤ 5
    ∧ ∀ t ∈ exA.slices, t.date ≤ 5 →
        t.date ≤ (⟨2, "a2", "Active Construction", [9]⟩ : SiteSlice).date :=
  (get_slice_latest exA 5).1 ⟨2, "a2", "Active Construction", [9]⟩ (by decide)

/-! ## C9: one row per date, the best-scoring one -/

theorem mem_drop_duplicate_dates :
    ∀ {l : List CompRow} {r : CompRow}, r ∈ drop_duplicate_dates l → r ∈ l := by
  intro l
  induction l with
  | nil => intro r h; simp [drop_duplicate_dates] at h
  | cons a t ih =>
    intro r h
    simp only [drop_duplicate_dates] at h
    by_cases hany : t.any (fun x => x.date == a.date) = true
    · rw [if_pos hany] at h
      exact List.mem_cons_of_mem a (ih h)
    · rw [if_neg hany] at h
      rcases List.mem_cons.mp h with rfl | h'
      · exact List.mem_cons_self _ _
      · exact List.mem_cons_of_mem a (ih h')

theorem dates_drop_duplicate_dates :
    ∀ {l : List CompRow} {d : ℕ},
      d ∈ l.map (·.date) ↔ d ∈ (drop_duplicate_dates l).map (·.date) := by
  intro l
  induction l with
  | nil => intro d; simp [drop_duplicate_dates]
  | cons a t ih =>
    intro d
    simp only [drop_duplicate_dates]
    by_cases hany : t.any (fun x => x.date == a.date) = true
    · rw [if_pos hany]
      simp only [List.map_cons, List.mem_cons]
      constructor
      · rintro (rfl | hd)
        · rcases List.any_eq_true.mp hany with ⟨x, hx, hxd⟩
          have : x.date = a.date := by simpa using hxd
          exact ih.mp (this ▸ List.mem_map_of_mem (·.date) hx)
        · exact ih.mp hd
      · intro hd
        exact Or.inr (ih.mpr hd)
    · rw [if_neg hany]
      simp only [List.map_cons, List.mem_cons]
      exact or_congr Iff.rfl ih

theorem nodup_dates_drop_duplicate_dates :
    ∀ l : List CompRow, ((drop_duplicate_dates l).map (·.date)).Nodup := by
  intro l
  induction l with
  | nil => simp [drop_duplicate_dates]
  | cons a t ih =>
    simp only [drop_duplicate_dates]
    by_cases hany : t.any (fun x => x.date == a.date) = true
    · rw [if_pos hany]; exact ih
    · rw [if_neg hany]
      simp only [List.map_cons, List.nodup_cons]
      refine ⟨?_, ih⟩
      intro hmem
      have hmem' : a.date ∈ t.map (·.date) := dates_drop_duplicate_dates.mpr hmem
      rcases List.mem_map.mp hmem' with ⟨x, hx, hxd⟩
      exact hany (List.any_eq_true.mpr ⟨x, hx, by simpa using hxd⟩)

theorem kept_row_is_best :
    ∀ {l : List CompRow}, List.Pairwise rowKeyLe l →
      ∀ {r : CompRow}, r ∈ drop_duplicate_dates l →
        ∀ q ∈ l, q.date = r.date →
          (q.iou < r.iou ∨ (q.iou = r.iou ∧ strLeP q.source r.source)) := by
  intro l
  induction l with
  | nil => intro _ r h; simp [drop_duplicate_dates] at h
  | cons a t ih =>
    intro hp r hr q hq hdate
    have hpc := List.pairwise_cons.mp hp
    simp only [drop_duplicate_dates] at hr
    by_cases hany : t.any (fun x => x.date == a.date) = true
    · rw [if_pos hany] at hr
      rcases List.mem_cons.mp hq with rfl | hq'
      · have hrt : r ∈ t := mem_drop_duplicate_dates hr
        rcases hpc.1 r hrt with hlt | ⟨heq, hiou⟩
        · exact absurd (hdate ▸ hlt) (lt_irrefl _)
        · exact hiou
      · exact ih hpc.2 hr q hq' hdate
    · rw [if_neg hany] at hr
      rcases List.mem_cons.mp hr with rfl | hr'
      · rcases List.mem_cons.mp hq with rfl | hq'
        · exact Or.inr ⟨rfl, strLeP_refl _⟩
        · exact absurd (List.any_eq_true.mpr ⟨q, hq', by simpa using hdate⟩) hany
      · rcases List.mem_cons.mp hq with rfl | hq'
        · have hrt : r ∈ t := mem_drop_duplicate_dates hr'
          exact absurd (List.any_eq_true.mpr ⟨r, hrt, by simpa using hdate.symm⟩) hany
        · exact ih hpc.2 hr' q hq' hdate

/-- C9: in the finished comparison table there is exactly one row per
truth-observation date: the dates are distinct, every raw-row date is
still present, and each kept row beats every raw row of its date — it
has the highest IoU, with ties on IoU resolved by the source order. -/
theorem stack_comparison_one_best_row_per_date (gt sm : SiteStack) :
    ((stack_comparison_rows gt sm).map (·.date)).Nodup
    ∧ (∀ d, d ∈ (raw_rows gt sm).map (·.date) ↔
        d ∈ (stack_comparison_rows gt sm).map (·.date))
    ∧ ∀ r ∈ stack_comparison_rows gt sm, r ∈ raw_rows gt sm
        ∧ ∀ q ∈ raw_rows gt sm, q.date = r.date →
            (q.iou < r.iou ∨ (q.iou = r.iou ∧ strLeP q.source r.source)) := by
  have hperm : (List.insertionSort rowKeyLe (raw_rows gt sm)).Perm (raw_rows gt sm) :=
    List.perm_insertionSort _ _
  have hsorted : List.Pairwise rowKeyLe (List.insertionSort rowKeyLe (raw_rows gt sm)) :=
    List.sorted_insertionSort rowKeyLe _
  refine ⟨nodup_dates_drop_duplicate_dates _, ?_, ?_⟩
  · intro d
    calc d ∈ (raw_rows gt sm).map (·.date)
        ↔ d ∈ (List.insertionSort rowKeyLe (raw_rows gt sm)).map (·.date) :=
          ((hperm.map (·.date)).mem_iff).symm
      _ ↔ d ∈ (stack_comparison_rows gt sm).map (·.date) := dates_drop_duplicate_dates
  · intro r hr
    have hrs : r ∈ List.insertionSort rowKeyLe (raw_rows gt sm) :=
      mem_drop_duplicate_dates hr
    refine ⟨hperm.mem_iff.mp hrs, ?_⟩
    intro q hq hdate
    exact kept_row_is_best hsorted hr q (hperm.mem_iff.mpr hq) hdate

/-- Witness for C9: the truth site `exGtDup` has two observations on
date 1; the kept row is the one with IoU 1 from source `"src2"`, and it
beats both raw rows. -/
theorem stack_comparison_one_best_row_per_date_witness :
    (⟨1, "src2", 1, 1, 1⟩ : CompRow) ∈ raw_rows exGtDup exSmDup
    ∧ ∀ q ∈ raw_rows exGtDup exSmDup, q.date = (⟨1, "src2", 1, 1, 1⟩ : CompRow).date →
        (q.iou < (⟨1, "src2", 1, 1, 1⟩ : CompRow).iou
          ∨ (q.iou = (⟨1, "src2", 1, 1, 1⟩ : CompRow).iou
              ∧ strLeP q.source (⟨1, "src2", 1, 1, 1⟩ : CompRow).source)) :=
  (stack_comparison_one_best_row_per_date exGtDup exSmDup).2.2 _ (by decide)

/-! ## C1: choice of the best matched proposal -/

/-- Decides `key(x) ≤ key(y)` for the association key
`(len(sites), spatial_overlap, sm_id)`: the complement of `det_key_gt`. -/
def det_key_le (num_sites : String → ℕ) (x y : Detection) : Prop :=
  num_sites x.sm_id < num_sites y.sm_id ∨
  (num_sites x.sm_id = num_sites y.sm_id ∧
    (x.spatial_overlap < y.spatial_overlap ∨
     (x.spatial_overlap = y.spatial_overlap ∧ strLeP x.sm_id y.sm_id)))

theorem strLe_eq_false_iff {a b : String} : strLe a b = false ↔ ¬ strLeP a b := by
  unfold strLeP
  constructor
  · intro h hc
    rw [h] at hc
    exact Bool.false_ne_true hc
  · intro h
    cases hb : strLe a b with
    | false => rfl
    | true => exact absurd hb h

theorem det_key_gt_iff (num_sites : String → ℕ) (y c : Detection) :
    det_key_gt num_sites y c = true ↔ ¬ det_key_le num_sites y c := by
  unfold det_key_gt det_key_le
  simp only [Bool.or_eq_true, Bool.and_eq_true, decide_eq_true_eq, strLt,
    Bool.not_eq_true']
  constructor
  · rintro (h | ⟨e, h2⟩)
    · rintro (h' | ⟨e', _⟩)
      · exact lt_asymm h h'
      · exact absurd e' (ne_of_gt h)
    · rintro (h' | ⟨_, h2'⟩)
      · exact absurd e (ne_of_gt h')
      · rcases h2 with hq | ⟨eq1, hs⟩
        · rcases h2' with hq' | ⟨eq1', _⟩
          · exact lt_asymm hq hq'
          · exact absurd eq1' (ne_of_gt hq)
        · rcases h2' with hq' | ⟨_, hs'⟩
          · exact absurd eq1 (ne_of_gt hq')
          · exact (strLe_eq_false_iff.mp hs) hs'
  · intro h
    rcases Nat.lt_trichotomy (num_sites y.sm_id) (num_sites c.sm_id) with hn | hn | hn
    · exact absurd (Or.inl hn) h
    · rcases lt_trichotomy y.spatial_overlap c.spatial_overlap with hq | hq | hq
      · exact absurd (Or.inr ⟨hn, Or.inl hq⟩) h
      · rcases strLeP_total y.sm_id c.sm_id with hs | hs
        · exact absurd (Or.inr ⟨hn, Or.inr ⟨hq, hs⟩⟩) h
        · refine Or.inr ⟨hn.symm, Or.inr ⟨hq.symm, ?_⟩⟩
          rw [strLe_eq_false_iff]
          intro hc
          exact h (Or.inr ⟨hn, Or.inr ⟨hq, hc⟩⟩)
      · exact Or.inr ⟨hn.symm, Or.inl hq⟩
    · exact Or.inl hn

theorem det_key_le_total (num_sites : String → ℕ) (x y : Detection) :
    det_key_le num_sites x y ∨ det_key_le num_sites y x := by
  unfold det_key_le
  rcases Nat.lt_trichotomy (num_sites x.sm_id) (num_sites y.sm_id) with h | h | h
  · exact Or.inl (Or.inl h)
  · rcases lt_trichotomy x.spatial_overlap y.spatial_overlap with hq | hq | hq
    · exact Or.inl (Or.inr ⟨h, Or.inl hq⟩)
    · rcases strLeP_total x.sm_id y.sm_id with hs | hs
      · exact Or.inl (Or.inr ⟨h, Or.inr ⟨hq, hs⟩⟩)
      · exact Or.inr (Or.inr ⟨h.symm, Or.inr ⟨hq.symm, hs⟩⟩)
    · exact Or.inr (Or.inr ⟨h.symm, Or.inl hq⟩)
  · exact Or.inr (Or.inl h)

theorem det_key_le_trans (num_sites : String → ℕ) (x y z : Detection)
    (h1 : det_key_le num_sites x y) (h2 : det_key_le num_sites y z) :
    det_key_le num_sites x z := by
  unfold det_key_le at *
  rcases h1 with h1 | ⟨e1, q1⟩
  · rcases h2 with h2 | ⟨e2, _⟩
    · exact Or.inl (lt_trans h1 h2)
    · exact Or.inl (e2 ▸ h1)
  · rcases h2 with h2 | ⟨e2, q2⟩
    · exact Or.inl (e1 ▸ h2)
    · refine Or.inr ⟨e1.trans e2, ?_⟩
      rcases q1 with hq1 | ⟨eq1, s1⟩
      · rcases q2 with hq2 | ⟨eq2, _⟩
        · exact Or.inl (lt_trans hq1 hq2)
        · exact Or.inl (eq2 ▸ hq1)
      · rcases q2 with hq2 | ⟨eq2, s2⟩
        · exact Or.inl (eq1 ▸ hq2)
        · exact Or.inr ⟨eq1.trans eq2, strLeP_trans s1 s2⟩

theorem py_max_foldl_spec {α : Type} (beats : α → α → Bool) (le : α → α → Prop)
    (hbeats : ∀ x y, beats x y = true ↔ ¬ le x y)
    (htotal : ∀ x y, le x y ∨ le y x)
    (htrans : ∀ x y z, le x y → le y z → le x z) :
    ∀ (rest : List α) (c : α),
      ((rest.foldl (fun c y => if beats y c then y else c) c) = c ∨
        (rest.foldl (fun c y => if beats y c then y else c) c) ∈ rest)
      ∧ le c (rest.foldl (fun c y => if beats y c then y else c) c)
      ∧ ∀ x ∈ rest, le x (rest.foldl (fun c y => if beats y c then y else c) c) := by
  intro rest
  induction rest with
  | nil =>
    intro c
    exact ⟨Or.inl rfl, (htotal c c).elim id id, by simp⟩
  | cons y rest ih =>
    intro c
    simp only [List.foldl_cons]
    by_cases hb : beats y c = true
    · rw [if_pos hb]
      obtain ⟨hmem, hle, hall⟩ := ih y
      have hcy : le c y := by
        rcases htotal y c with h | h
        · exact absurd h ((hbeats y c).mp hb)
        · exact h
      refine ⟨?_, htrans _ _ _ hcy hle, ?_⟩
      · rcases hmem with heq | h
        · rw [heq]; exact Or.inr (List.mem_cons_self _ _)
        · exact Or.inr (List.mem_cons_of_mem _ h)
      · intro x hx
        rcases List.mem_cons.mp hx with rfl | hx'
        · exact hle
        · exact hall x hx'
    · rw [if_neg hb]
      obtain ⟨hmem, hle, hall⟩ := ih c
      have hyc : le y c := by
        by_contra hcon
        exact hb ((hbeats y c).mpr hcon)
      refine ⟨?_, hle, ?_⟩
      · rcases hmem with heq | h
        · exact Or.inl heq
        · exact Or.inr (List.mem_cons_of_mem _ h)
      · intro x hx
        rcases List.mem_cons.mp hx with rfl | hx'
        · exact htrans _ _ _ hyc hle
        · exact hall x hx'

theorem py_max_by_spec {α : Type} (beats : α → α → Bool) (le : α → α → Prop)
    (hbeats : ∀ x y, beats x y = true ↔ ¬ le x y)
    (htotal : ∀ x y, le x y ∨ le y x)
    (htrans : ∀ x y z, le x y → le y z → le x z) :
    ∀ l : List α, l ≠ [] →
      ∃ m, py_max_by beats l = some m ∧ m ∈ l ∧ ∀ x ∈ l, le x m := by
  intro l hl
  match l with
  | [] => exact absurd rfl hl
  | x :: rest =>
    obtain ⟨hmem, hle, hall⟩ := py_max_foldl_spec beats le hbeats htotal htrans rest x
    refine ⟨_, rfl, ?_, ?_⟩
    · rcases hmem with h | h
      · rw [h]; exact List.mem_cons_self _ _
      · exact List.mem_cons_of_mem _ h
    · intro z hz
      rcases List.mem_cons.mp hz with rfl | hz'
      · exact hle
      · exact hall z hz'

/-- C1, counterexample: two detections tied on member count and spatial
overlap, with ids `"a"` and `"b"`; the `max` call in the code picks `"b"`, the
lexicographically larger id, not the smallest. -/
theorem best_sm_id_tiebreak_counterexample :
    best_sm_id (fun _ => 1) exDets = some "b"
    ∧ exDets = [⟨"a", half, 0, 0⟩, ⟨"b", half, 0, 0⟩]
    ∧ strLt "a" "b" = true := by
  exact ⟨by decide, rfl, by decide⟩

/-- C1, amended: among the proposals detecting a truth site, the one
selected is maximal under the key (most over-segmented member sites,
then highest spatial overlap, then lexicographically *largest* proposal
id): the key of every other detection is `≤` the key of the selected
one. -/
theorem best_sm_id_max (num_sites : String → ℕ) (dets : List Detection) (h : dets ≠ []) :
    ∃ d ∈ dets, best_sm_id num_sites dets = some d.sm_id
      ∧ ∀ e ∈ dets, det_key_le num_sites e d := by
  obtain ⟨m, hm, hmem, hall⟩ :=
    py_max_by_spec (det_key_gt num_sites) (det_key_le num_sites)
      (det_key_gt_iff num_sites) (det_key_le_total num_sites)
      (det_key_le_trans num_sites) dets h
  exact ⟨m, hmem, by rw [best_sm_id, hm]; rfl, hall⟩

/-- Witness for the amended theorem of C1 on the concrete tied detections. -/
theorem best_sm_id_max_witness :
    exDets ≠ []
    ∧ ∃ d ∈ exDets, best_sm_id (fun _ => 1) exDets = some d.sm_id
        ∧ ∀ e ∈ exDets, det_key_le (fun _ => 1) e d :=
  ⟨by decide, best_sm_id_max (fun _ => 1) exDets (by decide)⟩

/-! ## C2: the fast-reject path of `stack_comparison` -/

set_option maxRecDepth 40000

/-- C2 (code defect), evaluated at the failing input: a one-observation
truth site and a spatially disjoint proposal.  With the unary-union check
enabled, the fast-reject branch fills the score columns with
`len(gt_stack.slices)` zeros while `valid_slices` stays empty, so the
`DataFrame` build raises a length-mismatch `ValueError` instead of
returning the all-zero table. -/
theorem stack_comparison_fast_reject_raises :
    stack_comparison exGtDisjoint exSmDisjoint true
        = .error "Length of values does not match length of index"
    ∧ SiteStack.check_unary_union exGtDisjoint exSmDisjoint = []
    ∧ exGtDisjoint.slices ≠ [] := by
  decide

/-- The general form of the C2 defect: on every pair with disjoint unary
unions and at least one truth observation, `stack_comparison` with the
check enabled fails with the pandas length error rather than returning a
table. -/
theorem stack_comparison_fast_reject_raises_general (gt sm : SiteStack)
    (hdisj : SiteStack.check_unary_union gt sm = []) (hne : gt.slices ≠ []) :
    stack_comparison gt sm true
      = .error "Length of values does not match length of index" := by
  have h0 : gt.slices.length ≠ 0 := (List.length_pos.mpr hne).ne'
  unfold stack_comparison
  rw [hdisj]
  show mk_table gt.slices.length [] [] = _
  unfold mk_table
  rw [if_neg (by simpa using h0)]

/-! ## C3: when the pruning loop stops -/

/-- C3, counterexample: `tau = rho = 1/2`, truth site `exGt` and
proposals `A, B, C, D`.  The full union scores 0, pruning starts, and the
union `A_B_D` (the sixth table recorded) attains a detection score of
exactly `rho`; the claim says pruning stops there, but the code still
forms and scores the further union `A_B`. -/
theorem segment_sites_exact_rho_counterexample :
    exOut.2.1.map (fun s => s.id) = ["A_B_C_D", "A", "B", "C", "D", "A_B_D", "A_B"]
    ∧ detection_score half (exOut.2.2.getD 5 []) = half
    ∧ (exOut.2.1.getD 5 default).id = "A_B_D" := by
  decide

/-- C3, amended: for every confidence threshold, the greedy pruning loop
stops only when a candidate union attains a detection score strictly
greater than `rho`, or when no proposals remain.  Every iteration except
possibly the last scored its union `≤ rho` — in particular a union whose
score equals `rho` exactly does not stop the pruning (unlike the initial
full-union check, which stops at `detection_score ≥ rho`) — and the loop
either consumes the whole remaining list or ends at the first union
scoring strictly above `rho`. -/
theorem prune_loop_stop_condition (gt : SiteStack) (tau rho : ℚ)
    (l : List SiteStack) (acc : SegAcc) :
    (∀ i, i + 1 < (prune_loop gt tau rho l acc).2.2.length →
      ((prune_loop gt tau rho l acc).2.2.getD i ("", 0)).2 ≤ rho)
    ∧ ((prune_loop gt tau rho l acc).2.2.length = l.length
        ∨ ∃ p, (prune_loop gt tau rho l acc).2.2.getLast? = some p ∧ rho < p.2) := by
  induction l generalizing acc with
  | nil =>
    constructor
    · intro i hi
      simp [prune_loop] at hi
    · left
      simp [prune_loop]
  | cons r rest ih =>
    simp only [prune_loop]
    by_cases hds : (prune_step gt tau r rest acc).2.1 ≤ rho
    · rw [if_pos hds]
      obtain ⟨iha, ihb⟩ := ih (prune_step gt tau r rest acc).2.2
      constructor
      · intro i hi
        cases i with
        | zero => exact hds
        | succ j =>
          simp only [List.getD_cons_succ]
          exact iha j (by simpa using hi)
      · rcases ihb with hlen | ⟨p, hp, hrho⟩
        · left
          simp [hlen]
        · right
          refine ⟨p, ?_, hrho⟩
          cases htr : (prune_loop gt tau rho rest (prune_step gt tau r rest acc).2.2).2.2 with
          | nil => rw [htr] at hp; simp at hp
          | cons x xs =>
            rw [htr] at hp
            rw [List.getLast?_cons_cons]
            exact hp
    · rw [if_neg hds]
      constructor
      · intro i hi
        simp at hi
      · right
        exact ⟨_, rfl, lt_of_not_le hds⟩

/-- Witness for the amended theorem of C3, on the concrete pruning run of
the counterexample: the union of the first iteration (`A_B_D`) scored `≤ rho` and
the loop indeed continued. -/
theorem prune_loop_stop_condition_witness :
    0 + 1 < (prune_loop exGt half half [exD, exA, exB] ⟨[], [], []⟩).2.2.length
    ∧ ((prune_loop exGt half half [exD, exA, exB] ⟨[], [], []⟩).2.2.getD 0 ("", 0)).2 ≤ half :=
  ⟨by decide, (prune_loop_stop_condition exGt half half [exD, exA, exB] ⟨[], [], []⟩).1 0
    (by decide)⟩

/-! ## C4: pruning discards in ascending (score, id) order -/

theorem lookup_cache_append (c1 c2 : List (String × List CompRow)) (k : String) :
    lookup_cache (c1 ++ c2) k
      = match lookup_cache c1 k with
        | some v => some v
        | none => lookup_cache c2 k := by
  induction c1 with
  | nil => rfl
  | cons a t ih =>
    obtain ⟨ka, va⟩ := a
    by_cases h : ka = k
    · simp [lookup_cache, h]
    · simp only [List.cons_append, lookup_cache, if_neg h]
      exact ih

/-- Under a coherent cache (every hit for the id of a member is the
comparison table of that member) and distinct member ids, the individual scoring
pass pairs every member with its own detection score against the truth
site. -/
theorem score_individual_scores (gt : SiteStack) (tau : ℚ) :
    ∀ (l : List SiteStack) (acc : SegAcc),
      (∀ s ∈ l, ∀ df, lookup_cache acc.cache s.id = some df →
        df = stack_comparison_rows gt s) →
      (l.map (·.id)).Nodup →
      (score_individual gt tau l acc).2
        = l.map (fun s => (s, detection_score tau (stack_comparison_rows gt s))) := by
  intro l
  induction l with
  | nil => intro acc _ _; rfl
  | cons s rest ih =>
    intro acc hcache hids
    have hids' : (rest.map (·.id)).Nodup := (List.nodup_cons.mp hids).2
    have hsid : s.id ∉ rest.map (·.id) := (List.nodup_cons.mp hids).1
    simp only [score_individual]
    cases hl : lookup_cache acc.cache s.id with
    | some df =>
      have hdf : df = stack_comparison_rows gt s :=
        hcache s (List.mem_cons_self _ _) df hl
      simp only [hl, List.map_cons]
      rw [ih acc (fun t ht df' h => hcache t (List.mem_cons_of_mem s ht) df' h) hids']
      rw [hdf]
    | none =>
      have hcr : ∀ t ∈ rest, ∀ df',
          lookup_cache (acc.cache ++ [(s.id, stack_comparison_rows gt s)]) t.id = some df' →
            df' = stack_comparison_rows gt t := by
        intro t ht df' h
        rw [lookup_cache_append] at h
        cases hl2 : lookup_cache acc.cache t.id with
        | some v =>
          rw [hl2] at h
          have hv : v = df' := by injection h
          exact hv ▸ hcache t (List.mem_cons_of_mem s ht) v hl2
        | none =>
          rw [hl2] at h
          have hne : s.id ≠ t.id := by
            intro he
            exact hsid (he ▸ List.mem_map_of_mem (·.id) ht)
          simp only [lookup_cache, if_neg hne] at h
          exact Option.noConfusion h
      simp only [hl, seg_record, List.map_cons]
      rw [ih _ hcr hids']

theorem prune_loop_popped_take (gt : SiteStack) (tau rho : ℚ) :
    ∀ (l : List SiteStack) (acc : SegAcc),
      ∃ k, (prune_loop gt tau rho l acc).2.1 = l.take k := by
  intro l
  induction l with
  | nil => intro acc; exact ⟨0, rfl⟩
  | cons r rest ih =>
    intro acc
    simp only [prune_loop]
    by_cases hds : (prune_step gt tau r rest acc).2.1 ≤ rho
    · rw [if_pos hds]
      obtain ⟨k, hk⟩ := ih (prune_step gt tau r rest acc).2.2
      exact ⟨k + 1, by simp [hk]⟩
    · rw [if_neg hds]
      exact ⟨1, by simp⟩

/-- C4: in the greedy pruning phase the members are ordered ascending by
their individual detection score against the truth site, ties broken by
ascending (code-point) id order, and the sequence of discarded members is
exactly an initial segment of that order — at every step the discarded
proposal is the least remaining one, so equal-score proposals are pruned
in ascending-identifier order, deterministically. -/
theorem pruning_phase_discard_order (gt : SiteStack) (tau rho : ℚ)
    (sm_stacks : List SiteStack) (acc : SegAcc)
    (hcache : ∀ s ∈ sm_stacks, ∀ df,
      lookup_cache acc.cache s.id = some df → df = stack_comparison_rows gt s)
    (hids : (sm_stacks.map (·.id)).Nodup) :
    (∃ k, (pruning_phase gt tau rho sm_stacks acc).2
        = ((List.insertionSort scoredKeyLe
            (sm_stacks.map (fun s => (s, detection_score tau (stack_comparison_rows gt s))))).map
              (·.1)).take k)
    ∧ List.Pairwise scoredKeyLe (List.insertionSort scoredKeyLe
        (sm_stacks.map (fun s => (s, detection_score tau (stack_comparison_rows gt s)))))
    ∧ (List.insertionSort scoredKeyLe
        (sm_stacks.map (fun s => (s, detection_score tau (stack_comparison_rows gt s))))).Perm
        (sm_stacks.map (fun s => (s, detection_score tau (stack_comparison_rows gt s)))) := by
  refine ⟨?_, List.sorted_insertionSort _ _, List.perm_insertionSort _ _⟩
  have hscored := score_individual_scores gt tau sm_stacks acc hcache hids
  unfold pruning_phase
  rw [hscored]
  cases hsorted : List.insertionSort scoredKeyLe
      (sm_stacks.map (fun s => (s, detection_score tau (stack_comparison_rows gt s)))) with
  | nil => exact ⟨0, rfl⟩
  | cons first restS =>
    simp only [prune_phase_rest]
    by_cases hrho : (-1 : ℚ) ≤ rho
    · rw [if_pos hrho]
      obtain ⟨k, hk⟩ := prune_loop_popped_take gt tau rho (restS.map (·.1))
        (score_individual gt tau sm_stacks acc).1
      refine ⟨k + 1, ?_⟩
      simp only [hk, List.map_cons, List.take_succ_cons]
    · rw [if_neg hrho]
      exact ⟨1, by simp⟩

/-- Witness for C4 on the concrete four-proposal pruning run, with an
empty cache. -/
theorem pruning_phase_discard_order_witness :
    (∃ k, (pruning_phase exGt half half [exA, exB, exC, exD] ⟨[], [], []⟩).2
        = ((List.insertionSort scoredKeyLe
            ([exA, exB, exC, exD].map
              (fun s => (s, detection_score half (stack_comparison_rows exGt s))))).map
              (·.1)).take k)
    ∧ List.Pairwise scoredKeyLe (List.insertionSort scoredKeyLe
        ([exA, exB, exC, exD].map
          (fun s => (s, detection_score half (stack_comparison_rows exGt s)))))
    ∧ (List.insertionSort scoredKeyLe
        ([exA, exB, exC, exD].map
          (fun s => (s, detection_score half (stack_comparison_rows exGt s))))).Perm
        ([exA, exB, exC, exD].map
          (fun s => (s, detection_score half (stack_comparison_rows exGt s)))) :=
  pruning_phase_discard_order exGt half half [exA, exB, exC, exD] ⟨[], [], []⟩
    (fun _ _ df h => Option.noConfusion h) (by decide)

end SmartMetrics
